import Mathlib

/-!
Verification of the dump formatting engine of `dmp.c` (`dump_file`).

The embedding below translates `dump_file` and the helper output it produces
into Lean, together with the option record that the function reads (the
process-wide option variables `Ascii`, `LoCase`, `WordLen`, `PerLine`,
`AddrNum`, `HalfGap`, `HexDump`, `AscWide`, `EndAddr`, `Start`, `Count`).

Modelling conventions:
  - the input byte stream is a `List Nat` (each `fgetc` result is 0..255);
  - text written through `fprintf` is modelled as a `List Char`;
  - the C `while` loop of `dump_file` becomes the recursion `dumpLoop`; the
    loop condition `(ch = fgetc(fpi)) != EOF && (!Count || cnt < Count)`
    first consumes a byte and only then tests the byte limit, which the
    embedding reproduces exactly (the consumed look-ahead byte lands in no
    output and is dropped from the returned remainder of the stream);
  - the run state carries two ghost fields that add no behaviour and change
    no output: `lines` logs the byte count of each line completed by the
    line-wrap branch, and `ovfl` records whether the loop ever performed a
    write `asc[ix]` with `ix ≥ 64`, i.e. past the end of the C declaration
    `char asc[64]` of `dump_file`;
  - the returned `ret` mirrors the C return `( ch == EOF ? cnt : -cnt )`;
    the caller in `main` treats a negative return as a truncated dump.
-/

/-- The option variables of `dmp.c` that `dump_file` reads (set once by the
argument parser before the call, never written by `dump_file`). -/
structure Config where
  Ascii : Bool
  LoCase : Bool
  WordLen : Nat
  PerLine : Nat
  AddrNum : Nat
  HalfGap : Nat
  HexDump : Bool
  AscWide : Bool
  EndAddr : Bool
  Start : Nat
  Count : Nat

/-- One hex digit as printed by printf `%x`/`%X`: `0`-`9` then `a`-`f` or
`A`-`F` according to the case flag. Applied to values below 16. -/
def hexDigitChar (lo : Bool) (n : Nat) : Char :=
  if n < 10 then Char.ofNat (48 + n)
  else Char.ofNat ((if lo then 87 else 55) + n)

/-- Hex digits of `n`, most significant first, `[]` for `n = 0`.  The first
argument is recursion fuel; any fuel at least the digit count of `n` (in
particular `n` itself) yields the full expansion. -/
def natToHexAux (lo : Bool) : Nat → Nat → List Char
  | 0, _ => []
  | _ + 1, 0 => []
  | fuel + 1, n + 1 =>
      natToHexAux lo fuel ((n + 1) / 16) ++ [hexDigitChar lo ((n + 1) % 16)]

/-- printf hex rendering of `n` with no field width (at least one digit). -/
def natToHex (lo : Bool) (n : Nat) : List Char :=
  if n = 0 then ['0'] else natToHexAux lo n n

/-- printf zero padding to a minimum field width, as in `%04X`: shorter
renderings are left-padded with `0`, longer ones are kept in full. -/
def padZ (w : Nat) (s : List Char) : List Char := List.replicate (w - s.length) '0' ++ s

/-- Address field of `AddrNum == 1` (`"%04X  "`). -/
def addrShort (lo : Bool) (a : Nat) : List Char := padZ 4 (natToHex lo a) ++ [' ', ' ']

/-- Address field of `AddrNum == 2` (`"%08X  "`). -/
def addrLong (lo : Bool) (a : Nat) : List Char := padZ 8 (natToHex lo a) ++ [' ', ' ']

/-- Address field of `AddrNum == 3`: the variable-width chain of
`dump_file` (`"    %04X  "`, `"   %05X  "`, `"  %06X  "`, `" %07X  "`,
`"%08X  "` selected by the magnitude of `adr`). -/
def addrVar (lo : Bool) (a : Nat) : List Char :=
  if a < 0x00010000 then [' ', ' ', ' ', ' '] ++ padZ 4 (natToHex lo a) ++ [' ', ' ']
  else if a < 0x00100000 then [' ', ' ', ' '] ++ padZ 5 (natToHex lo a) ++ [' ', ' ']
  else if a < 0x01000000 then [' ', ' '] ++ padZ 6 (natToHex lo a) ++ [' ', ' ']
  else if a < 0x10000000 then [' '] ++ padZ 7 (natToHex lo a) ++ [' ', ' ']
  else padZ 8 (natToHex lo a) ++ [' ', ' ']

/-- The `if (AddrNum == 1) ... else if (AddrNum == 2) ... else if (AddrNum == 3)`
chain at the start of a line (nothing is printed for other values). -/
def addrField (cfg : Config) (a : Nat) : List Char :=
  if cfg.AddrNum = 1 then addrShort cfg.LoCase a
  else if cfg.AddrNum = 2 then addrLong cfg.LoCase a
  else if cfg.AddrNum = 3 then addrVar cfg.LoCase a
  else []

/-- `"%02X"` / `"%02x"` of one byte. -/
def hexPair (lo : Bool) (ch : Nat) : List Char := padZ 2 (natToHex lo ch)

/-- The ASCII-gutter rendering of one byte: `_` for `0x00`, `.` below `' '`
or above `'~'`, otherwise the byte itself. -/
def asciiChar (ch : Nat) : Char :=
  if ch = 0 then '_' else if ch < 32 then '.' else if 126 < ch then '.' else Char.ofNat ch

/-- The grouping separator emitted after a byte has been placed (`ix` already
incremented): one space at a word-group boundary, one more at a half-gap
boundary, both only when `HexDump` is on. -/
def sepAfter (cfg : Config) (ix : Nat) : List Char :=
  if cfg.HexDump then
    (if cfg.WordLen ≠ 0 ∧ ix % cfg.WordLen = 0 then [' '] else [])
      ++ (if cfg.HalfGap ≠ 0 ∧ ix % cfg.HalfGap = 0 then [' '] else [])
  else []

/-- The `sp` separator written before `|...|`: `dump_file` builds `"  "`,
truncates it to `" "` when `WordLen` is set, and to `""` when `WordLen` and
`HalfGap` are both set; without `HexDump` it stays empty.  The same
computation appears verbatim at the line-wrap site and at the flush site. -/
def spGutter (cfg : Config) : List Char :=
  if cfg.HexDump then
    if cfg.WordLen ≠ 0 then (if cfg.HalfGap ≠ 0 then [] else [' ']) else [' ', ' ']
  else []

/-- The mutable locals of one `dump_file` run (`adr`, `cnt`, `ix`, `asc`)
plus two ghost fields: `lines` records the byte count of every line closed
by the wrap branch, and `ovfl` records whether some `asc[ix]` write of the
main loop used `ix ≥ 64` (out of bounds for the C array `char asc[64]`).
Neither ghost field influences any other field or any output. -/
structure DumpSt where
  adr : Nat
  cnt : Nat
  ix : Nat
  asc : List Char
  lines : List Nat
  ovfl : Bool

/-- Initial run state: `adr = 0, cnt = 0, ix = 0`, empty `asc`. -/
def initSt : DumpSt := ⟨0, 0, 0, [], [], false⟩

/-- Text emitted by one loop iteration for byte `ch` (after the skip and
limit checks): optional line-start address, hex pair, grouping separator,
and, when the line is full, the gutter and line terminator of the wrap. -/
def stepOut (cfg : Config) (st : DumpSt) (ch : Nat) : List Char :=
  (if st.ix = 0 ∧ cfg.AddrNum ≠ 0 then addrField cfg st.adr else [])
  ++ (if cfg.HexDump then hexPair cfg.LoCase ch else [])
  ++ sepAfter cfg (st.ix + 1)
  ++ (if cfg.PerLine ≠ 0 ∧ cfg.PerLine ≤ st.ix + 1 then
        (if cfg.Ascii then
          spGutter cfg ++ ['|'] ++ (st.asc ++ [asciiChar ch]) ++ ['|']
        else []) ++ ['\n']
      else [])

/-- State update of one loop iteration for byte `ch`: ASCII capture, `ix`
increment, wrap reset when the line is full, then `adr++`, `cnt++`. -/
def stepSt (cfg : Config) (st : DumpSt) (ch : Nat) : DumpSt :=
  let asc2 := if cfg.Ascii then st.asc ++ [asciiChar ch] else st.asc
  let ov2 := st.ovfl || (cfg.Ascii && decide (64 ≤ st.ix))
  if cfg.PerLine ≠ 0 ∧ cfg.PerLine ≤ st.ix + 1 then
    ⟨st.adr + 1, st.cnt + 1, 0, [], st.lines ++ [st.ix + 1], ov2⟩
  else
    ⟨st.adr + 1, st.cnt + 1, st.ix + 1, asc2, st.lines, ov2⟩

/-- Result of the main loop: emitted text, final state, whether the loop
ended by reading EOF (`eof = true`) or by the byte limit (`eof = false`),
and the unread remainder of the stream. -/
structure LoopRes where
  out : List Char
  st : DumpSt
  eof : Bool
  rem : List Nat

/-- The `while ((ch = fgetc(fpi)) != EOF && (!Count || cnt < Count))` loop
of `dump_file`, including the `Start` skip phase.  Note the consumed
look-ahead byte when the limit test fails: `fgetc` runs before the test. -/
def dumpLoop (cfg : Config) : List Nat → DumpSt → LoopRes
  | [], st => ⟨[], st, true, []⟩
  | ch :: rest, st =>
    if cfg.Count ≠ 0 ∧ ¬ st.cnt < cfg.Count then ⟨[], st, false, rest⟩
    else if cfg.Start ≠ 0 ∧ st.adr < cfg.Start then
      dumpLoop cfg rest ⟨st.adr + 1, st.cnt, st.ix, st.asc, st.lines, st.ovfl⟩
    else
      let r := dumpLoop cfg rest (stepSt cfg st ch)
      ⟨stepOut cfg st ch ++ r.out, r.st, r.eof, r.rem⟩

/-- Text of the blank-fill loop `while (PerLine && ix < PerLine)` of the
end-of-file processing: two blanks instead of digits plus the grouping
separator, per missing byte.  The first argument is the iteration count
`PerLine - ix`; the second is the running `ix`. -/
def flushPadOut (cfg : Config) : Nat → Nat → List Char
  | 0, _ => []
  | f + 1, ix =>
    (if cfg.HexDump then [' ', ' '] else []) ++ sepAfter cfg (ix + 1)
      ++ flushPadOut cfg f (ix + 1)

/-- Text of the end-of-file processing of `dump_file` (everything before the
`EndAddr` report): finish a started line with blank fill and gutter when
`Ascii` is on, a bare line terminator otherwise, nothing when `ix == 0`. -/
def flushLine (cfg : Config) (st : DumpSt) : List Char :=
  if cfg.Ascii ∧ st.ix ≠ 0 then
    flushPadOut cfg (cfg.PerLine - st.ix) st.ix
    ++ spGutter cfg ++ ['|']
    ++ (if cfg.AscWide then st.asc ++ List.replicate (cfg.PerLine - st.ix) ' ' else st.asc)
    ++ ['|', '\n']
  else if st.ix ≠ 0 then ['\n']
  else []

/-- The `if (EndAddr) fprintf(fpo, "%08x\n", cnt)` report (always lowercase). -/
def endAddrOut (cfg : Config) (cnt : Nat) : List Char :=
  if cfg.EndAddr then padZ 8 (natToHex true cnt) ++ ['\n'] else []

/-- Result of one whole `dump_file` call. -/
structure DumpRes where
  out : List Char
  ret : Int
  st : DumpSt
  rem : List Nat

/-- The whole of `dump_file fpi fpo` on a stream: main loop, end-of-file
processing, `EndAddr` report, and the return value
`( ch == EOF ? cnt : -cnt )`. -/
def dump_file (cfg : Config) (S : List Nat) : DumpRes :=
  let r := dumpLoop cfg S initSt
  ⟨r.out ++ flushLine cfg r.st ++ endAddrOut cfg r.st.cnt,
   if r.eof then (r.st.cnt : Int) else -(r.st.cnt : Int), r.st, r.rem⟩

/-- The completion summary the caller derives from the return value of
`dump_file`: `count = (cnt >= 0 ? cnt : -cnt)` bytes, truncated when the
return is negative (End-of-Dump rather than End-of-File). -/
structure Summary where
  bytesEmitted : Nat
  truncated : Bool

/-- Summary of one run. -/
def summaryOf (cfg : Config) (S : List Nat) : Summary :=
  ⟨(dump_file cfg S).ret.natAbs, decide ((dump_file cfg S).ret < 0)⟩

/-- Number of bytes the run pulled from the stream (`fgetc` calls that
returned a byte): stream length minus the unread remainder. -/
def consumedOf (cfg : Config) (S : List Nat) : Nat :=
  S.length - (dump_file cfg S).rem.length

/-- Byte counts of the dump's lines: every line closed by the wrap branch
(ghost log) followed by the partial line the flush phase would finish. -/
def lineByteCounts (cfg : Config) (S : List Nat) : List Nat :=
  (dump_file cfg S).st.lines
    ++ (if (dump_file cfg S).st.ix ≠ 0 then [(dump_file cfg S).st.ix] else [])

/-- The option defaults set at the top of `main`: ASCII gutter on, uppercase,
word group 1, 16 bytes per line, long addresses, no half gap, hex dump on,
full-width gutter, no trailing address, no skip, no limit. -/
def cfgDefault : Config := ⟨true, false, 1, 16, 2, 0, true, true, false, 0, 0⟩

/-- Default options except that the dump starts at byte 1 and wraps after
every byte (used to test the line-count property under a skip). -/
def cfgSkipOne : Config := { cfgDefault with Start := 1, PerLine := 1 }

/-- Default options except for a byte limit of 1. -/
def cfgLimitOne : Config := { cfgDefault with Count := 1 }

/-- Default options except for a byte limit of 2. -/
def cfgLimitTwo : Config := { cfgDefault with Count := 2 }

/-- Default options plus the trailing-address report. -/
def cfgEndAddr : Config := { cfgDefault with EndAddr := true }

/-- Continuous mode (`PerLine = 0`) with the ASCII gutter left enabled. -/
def cfgContAscii : Config := { cfgDefault with PerLine := 0 }

/-- Default options plus a half gap of 8 (word group stays 1). -/
def cfgHalfGap : Config := { cfgDefault with HalfGap := 8 }

/-- Hex digits off, ASCII on, with grouping options set (their values must
not matter for the gutter separator). -/
def cfgNoHex : Config := { cfgDefault with HexDump := false, WordLen := 4, HalfGap := 8 }

/-- Default options except that the dump starts at byte 5. -/
def cfgSkipFive : Config := { cfgDefault with Start := 5 }

/-- Value of a hex digit character, the inverse of `hexDigitChar`. -/
def hexVal (c : Char) : Option Nat :=
  if '0' ≤ c ∧ c ≤ '9' then some (c.toNat - 48)
  else if 'A' ≤ c ∧ c ≤ 'F' then some (c.toNat - 55)
  else if 'a' ≤ c ∧ c ≤ 'f' then some (c.toNat - 87)
  else none

/-- Rebuild bytes from a flat list of hex digit values, two per byte. -/
def pairUp : List Nat → List Nat
  | d1 :: d2 :: rest => (16 * d1 + d2) :: pairUp rest
  | _ => []

/-- Re-derive the bytes of one dump line of the default configuration:
drop the 10-character address column (`"%08X  "`), keep the text up to the
`|` that opens the ASCII gutter, read off the hex digits (separator blanks
contribute nothing), and pair them into bytes. -/
def decodeLine (l : List Char) : List Nat :=
  pairUp (((l.drop 10).takeWhile (fun c => decide (c ≠ '|'))).filterMap hexVal)

/-- Split a character stream at every line terminator; each `'\n'` closes
one segment, characters after the last `'\n'` form a final segment. -/
def splitNL : List Char → List (List Char)
  | [] => []
  | c :: rest =>
    if c = '\n' then [] :: splitNL rest
    else
      match splitNL rest with
      | [] => [[c]]
      | s :: ss => (c :: s) :: ss

/-- Terminate every line with `'\n'` and concatenate. -/
def joinNL (L : List (List Char)) : List Char := L.flatMap (fun l => l ++ ['\n'])

/-- Re-derive all bytes from the text of a default-configuration dump,
line by line. -/
def decodeBytes (out : List Char) : List Nat := (splitNL out).flatMap decodeLine

/-- Hex pair of one byte followed by the word-group separator, as the
default configuration (word group 1, no half gap) emits per byte. -/
def hexSp (b : Nat) : List Char := hexPair false b ++ [' ']

/-- One whole output line of the default configuration holding the chunk
`c` of at most 16 bytes: long address, hex pairs with separators, blank
fill, the two-character gap collapsed to one space, and the ASCII gutter
padded to full width. -/
def mkLine (adr : Nat) (c : List Nat) : List Char :=
  addrLong false adr
  ++ c.flatMap hexSp
  ++ List.replicate (3 * (16 - c.length)) ' '
  ++ [' ', '|']
  ++ c.map asciiChar
  ++ List.replicate (16 - c.length) ' '
  ++ ['|']

/-- The lines of a default-configuration dump of `S`, 16 bytes per line,
first line addressed at `adr`. -/
def dumpLinesL (adr : Nat) (S : List Nat) : List (List Char) :=
  match S with
  | [] => []
  | b :: tail => mkLine adr (b :: tail.take 15) :: dumpLinesL (adr + 16) (tail.drop 15)
termination_by S.length
decreasing_by simp [List.length_drop]; omega

/-- Digit widths of the `AddrNum == 3` (variable) address chain of
`dump_file`: 4 below 0x10000, 5 below 0x100000, 6 below 0x1000000,
7 below 0x10000000, else 8. -/
def dvar (a : Nat) : Nat :=
  if a < 0x00010000 then 4
  else if a < 0x00100000 then 5
  else if a < 0x01000000 then 6
  else if a < 0x10000000 then 7
  else 8

/-- Number of non-blank characters of an address field; on `addrVar` output
this counts exactly the hex digits, since the field is leading blanks, then
digits, then two trailing blanks. -/
def hexDigitCount (l : List Char) : Nat := (l.filter (fun c => decide (c ≠ ' '))).length

/-! Basic facts about the hex renderings. -/

theorem natToHexAux_zero (lo : Bool) (f : Nat) : natToHexAux lo f 0 = [] := by
  cases f <;> rfl

theorem padZ_length (w : Nat) (s : List Char) : (padZ w s).length = max w s.length := by
  simp [padZ]; omega

theorem natToHexAux_length_le (lo : Bool) :
    ∀ fuel k n : Nat, n < 16 ^ k → (natToHexAux lo fuel n).length ≤ k := by
  intro fuel
  induction fuel with
  | zero => intro k n _; simp [natToHexAux]
  | succ f ih =>
    intro k n hn
    match n with
    | 0 => simp [natToHexAux]
    | n + 1 =>
      match k with
      | 0 => omega
      | k + 1 =>
        have hdiv : (n + 1) / 16 < 16 ^ k := by
          rw [Nat.div_lt_iff_lt_mul (by omega)]
          calc n + 1 < 16 ^ (k + 1) := hn
            _ = 16 ^ k * 16 := by rw [pow_succ]
        have := ih k ((n + 1) / 16) hdiv
        simp only [natToHexAux, List.length_append, List.length_cons, List.length_nil]
        omega

theorem natToHex_length_le (lo : Bool) {k n : Nat} (hk : 0 < k) (h : n < 16 ^ k) :
    (natToHex lo n).length ≤ k := by
  unfold natToHex
  split
  · simpa using hk
  · exact natToHexAux_length_le lo n k n h

theorem natToHexAux_mem (lo : Bool) :
    ∀ fuel n : Nat, ∀ c ∈ natToHexAux lo fuel n, ∃ m, m < 16 ∧ c = hexDigitChar lo m := by
  intro fuel
  induction fuel with
  | zero => intro n c hc; simp [natToHexAux] at hc
  | succ f ih =>
    intro n c hc
    match n with
    | 0 => simp [natToHexAux] at hc
    | n + 1 =>
      simp only [natToHexAux, List.mem_append, List.mem_singleton] at hc
      rcases hc with hc | hc
      · exact ih _ c hc
      · exact ⟨(n + 1) % 16, Nat.mod_lt _ (by omega), hc⟩

theorem natToHex_mem (lo : Bool) (n : Nat) :
    ∀ c ∈ natToHex lo n, ∃ m, m < 16 ∧ c = hexDigitChar lo m := by
  intro c hc
  unfold natToHex at hc
  split at hc
  · simp at hc
    exact ⟨0, by omega, by subst hc; cases lo <;> rfl⟩
  · exact natToHexAux_mem lo n n c hc

theorem padZ_mem {w : Nat} {s : List Char} : ∀ c ∈ padZ w s, c = '0' ∨ c ∈ s := by
  intro c hc
  rcases List.mem_append.mp hc with h | h
  · exact Or.inl (List.eq_of_mem_replicate h)
  · exact Or.inr h

set_option maxRecDepth 8192 in
theorem hexDigitChar_props : ∀ lo : Bool, ∀ m, m < 16 →
    hexVal (hexDigitChar lo m) = some m ∧ hexDigitChar lo m ≠ ' ' ∧
    hexDigitChar lo m ≠ '\n' ∧ hexDigitChar lo m ≠ '|' := by decide

set_option maxRecDepth 8192 in
theorem hexPair_eq_digits : ∀ b, b < 256 →
    hexPair false b = [hexDigitChar false (b / 16), hexDigitChar false (b % 16)] := by decide

set_option maxRecDepth 8192 in
theorem asciiChar_ne_nl : ∀ b, b < 256 → asciiChar b ≠ '\n' := by decide

theorem hexVal_space : hexVal ' ' = none := by decide

/-! Decoder lemmas. -/

theorem takeWhile_append_all {α : Type} (p : α → Bool) :
    ∀ l₁ l₂ : List α, (∀ a ∈ l₁, p a = true) →
      (l₁ ++ l₂).takeWhile p = l₁ ++ l₂.takeWhile p := by
  intro l₁
  induction l₁ with
  | nil => intro l₂ _; rfl
  | cons a l ih =>
    intro l₂ h
    have ha : p a = true := h a (by simp)
    simp only [List.cons_append, List.takeWhile_cons, ha, if_true]
    rw [ih l₂ (fun x hx => h x (by simp [hx]))]

theorem filterMap_hexVal_spaces (n : Nat) : (List.replicate n ' ').filterMap hexVal = [] := by
  induction n with
  | zero => rfl
  | succ k ih => simp [List.replicate_succ, List.filterMap_cons, ih, hexVal_space]

set_option maxRecDepth 8192 in
theorem hexSp_filterMap : ∀ b, b < 256 → (hexSp b).filterMap hexVal = [b / 16, b % 16] := by
  decide

set_option maxRecDepth 8192 in
theorem hexSp_mem : ∀ b, b < 256 → ∀ c ∈ hexSp b, c ≠ '|' ∧ c ≠ '\n' := by decide

theorem flatMap_hexSp_filterMap (c : List Nat) (hb : ∀ b ∈ c, b < 256) :
    (c.flatMap hexSp).filterMap hexVal = c.flatMap (fun b => [b / 16, b % 16]) := by
  induction c with
  | nil => rfl
  | cons b c ih =>
    simp only [List.flatMap_cons, List.filterMap_append]
    rw [hexSp_filterMap b (hb b (by simp)), ih (fun x hx => hb x (by simp [hx]))]

theorem pairUp_flat (c : List Nat) :
    pairUp (c.flatMap (fun b => [b / 16, b % 16])) = c := by
  induction c with
  | nil => rfl
  | cons b c ih =>
    simp only [List.flatMap_cons, List.cons_append, List.nil_append]
    show pairUp (b / 16 :: b % 16 :: c.flatMap _) = b :: c
    rw [pairUp, ih, Nat.div_add_mod b 16]

theorem addrLong_length {a : Nat} (h : a < 16 ^ 8) : (addrLong false a).length = 10 := by
  have := natToHex_length_le false (k := 8) (by omega) h
  simp [addrLong, padZ_length]
  omega

theorem addrLong_no_nl (lo : Bool) (a : Nat) : '\n' ∉ addrLong lo a := by
  intro h
  simp only [addrLong, List.mem_append] at h
  rcases h with h | h
  · rcases padZ_mem _ h with h0 | hm
    · exact absurd h0 (by decide)
    · obtain ⟨m, hm16, he⟩ := natToHex_mem lo a _ hm
      exact (hexDigitChar_props lo m hm16).2.2.1 he.symm
  · simp at h

theorem mkLine_no_nl (adr : Nat) (c : List Nat) (hb : ∀ b ∈ c, b < 256) :
    '\n' ∉ mkLine adr c := by
  intro h
  simp only [mkLine, List.mem_append, List.mem_cons, List.mem_singleton,
    List.mem_map] at h
  rcases h with ((((((h | h) | h) | h) | h) | h) | h)
  · exact addrLong_no_nl false adr h
  · obtain ⟨b, hbc, hcb⟩ := List.mem_flatMap.mp h
    exact ((hexSp_mem b (hb b hbc)) _ hcb).2 rfl
  · exact absurd (List.eq_of_mem_replicate h) (by decide)
  · rcases h with h | h
    · exact absurd h (by decide)
    · simp at h
  · obtain ⟨b, hbc, hcb⟩ := h
    exact asciiChar_ne_nl b (hb b hbc) hcb
  · exact absurd (List.eq_of_mem_replicate h) (by decide)
  · exact absurd h (by decide)

theorem decodeLine_mkLine (adr : Nat) (c : List Nat) (hb : ∀ b ∈ c, b < 256)
    (ha : adr < 16 ^ 8) : decodeLine (mkLine adr c) = c := by
  have hlen : (addrLong false adr).length = 10 := addrLong_length ha
  have hdrop : (mkLine adr c).drop 10
      = c.flatMap hexSp ++ (List.replicate (3 * (16 - c.length)) ' '
        ++ (' ' :: '|' :: (c.map asciiChar ++ (List.replicate (16 - c.length) ' ' ++ ['|'])))) := by
    rw [mkLine]
    simp only [List.append_assoc, List.cons_append, List.nil_append]
    rw [← hlen, List.drop_left]
  rw [decodeLine, hdrop]
  have p1 : ∀ a ∈ c.flatMap hexSp, (fun x => decide (x ≠ '|')) a = true := by
    intro a hmem
    obtain ⟨b, hbc, hcb⟩ := List.mem_flatMap.mp hmem
    simpa using ((hexSp_mem b (hb b hbc)) _ hcb).1
  have p2 : ∀ a ∈ List.replicate (3 * (16 - c.length)) ' ',
      (fun x => decide (x ≠ '|')) a = true := by
    intro a hmem
    have := List.eq_of_mem_replicate hmem
    subst this; decide
  rw [takeWhile_append_all _ _ _ p1, takeWhile_append_all _ _ _ p2]
  rw [List.takeWhile_cons]
  simp only [ne_eq, decide_not, if_true, decide_eq_true_eq]
  rw [if_pos (by decide), List.takeWhile_cons, if_neg (by simp)]
  simp only [List.filterMap_append]
  rw [flatMap_hexSp_filterMap c hb, filterMap_hexVal_spaces]
  simp only [List.filterMap_cons, hexVal_space, List.filterMap_nil, List.append_nil]
  exact pairUp_flat c

theorem splitNL_line (l rest : List Char) (h : '\n' ∉ l) :
    splitNL (l ++ '\n' :: rest) = l :: splitNL rest := by
  induction l with
  | nil => simp [splitNL]
  | cons c l ih =>
    have hc : ¬ c = '\n' := fun e => h (by simp [e])
    have h' : '\n' ∉ l := fun m => h (by simp [m])
    simp only [List.cons_append, splitNL, List.append_eq, if_neg hc, ih h']

theorem splitNL_joinNL (L : List (List Char)) (h : ∀ l ∈ L, '\n' ∉ l) :
    splitNL (joinNL L) = L := by
  induction L with
  | nil => rfl
  | cons l L ih =>
    have hj : joinNL (l :: L) = l ++ '\n' :: joinNL L := by
      simp [joinNL]
    rw [hj, splitNL_line l _ (h l (by simp)), ih (fun x hx => h x (by simp [hx]))]

/-! Shape of the main loop under the default configuration. -/

theorem dumpLoop_nil (cfg : Config) (st : DumpSt) : dumpLoop cfg [] st = ⟨[], st, true, []⟩ := rfl

theorem dumpLoop_cons_free (cfg : Config) (h1 : cfg.Count = 0) (h2 : cfg.Start = 0)
    (ch : Nat) (rest : List Nat) (st : DumpSt) :
    dumpLoop cfg (ch :: rest) st =
      ⟨stepOut cfg st ch ++ (dumpLoop cfg rest (stepSt cfg st ch)).out,
       (dumpLoop cfg rest (stepSt cfg st ch)).st,
       (dumpLoop cfg rest (stepSt cfg st ch)).eof,
       (dumpLoop cfg rest (stepSt cfg st ch)).rem⟩ := by
  rw [dumpLoop, if_neg (by simp [h1]), if_neg (by simp [h2])]

theorem sepAfter_default (ix : Nat) : sepAfter cfgDefault ix = [' '] := by
  simp [sepAfter, cfgDefault, Nat.mod_one]

theorem spGutter_default : spGutter cfgDefault = [' '] := by
  simp [spGutter, cfgDefault]

theorem stepOut_default_mid (st : DumpSt) (ch : Nat) (h : st.ix + 1 < 16) :
    stepOut cfgDefault st ch
      = (if st.ix = 0 then addrLong false st.adr else []) ++ (hexPair false ch ++ [' ']) := by
  have hw : ¬ (cfgDefault.PerLine ≠ 0 ∧ cfgDefault.PerLine ≤ st.ix + 1) := by
    simp [cfgDefault]; omega
  rw [stepOut, if_neg hw, sepAfter_default]
  simp [cfgDefault, addrField]

theorem stepSt_default_mid (st : DumpSt) (ch : Nat) (h : st.ix + 1 < 16) :
    stepSt cfgDefault st ch
      = ⟨st.adr + 1, st.cnt + 1, st.ix + 1, st.asc ++ [asciiChar ch], st.lines, st.ovfl⟩ := by
  have hw : ¬ (cfgDefault.PerLine ≠ 0 ∧ cfgDefault.PerLine ≤ st.ix + 1) := by
    simp [cfgDefault]; omega
  have hov : ¬ 64 ≤ st.ix := by omega
  rw [stepSt]
  simp [hw, cfgDefault, hov]
  omega

theorem stepOut_default_wrap (st : DumpSt) (ch : Nat) (h : st.ix + 1 = 16) :
    stepOut cfgDefault st ch
      = (if st.ix = 0 then addrLong false st.adr else [])
        ++ (hexPair false ch ++ [' ']) ++ [' ', '|']
        ++ (st.asc ++ [asciiChar ch]) ++ ['|', '\n'] := by
  have hw : cfgDefault.PerLine ≠ 0 ∧ cfgDefault.PerLine ≤ st.ix + 1 := by
    simp [cfgDefault]; omega
  rw [stepOut, if_pos hw, sepAfter_default, spGutter_default]
  simp [cfgDefault, addrField]

theorem stepSt_default_wrap (st : DumpSt) (ch : Nat) (h : st.ix + 1 = 16) :
    stepSt cfgDefault st ch
      = ⟨st.adr + 1, st.cnt + 1, 0, [], st.lines ++ [16], st.ovfl⟩ := by
  have hw : cfgDefault.PerLine ≠ 0 ∧ cfgDefault.PerLine ≤ st.ix + 1 := by
    simp [cfgDefault]; omega
  have hov : ¬ 64 ≤ st.ix := by omega
  rw [stepSt]
  simp [hw, cfgDefault, hov, h]

theorem run_part (c : List Nat) :
    ∀ (b : Nat) (st : DumpSt), st.ix + c.length + 1 < 16 →
    dumpLoop cfgDefault (b :: c) st =
      ⟨(if st.ix = 0 then addrLong false st.adr else []) ++ (b :: c).flatMap hexSp,
       ⟨st.adr + (c.length + 1), st.cnt + (c.length + 1), st.ix + (c.length + 1),
        st.asc ++ (b :: c).map asciiChar, st.lines, st.ovfl⟩, true, []⟩ := by
  induction c with
  | nil =>
    intro b st h
    simp only [List.length_nil] at h
    rw [dumpLoop_cons_free cfgDefault rfl rfl, dumpLoop_nil,
      stepOut_default_mid st b (by omega), stepSt_default_mid st b (by omega)]
    simp [hexSp]
  | cons x c ih =>
    intro b st h
    simp only [List.length_cons] at h
    rw [dumpLoop_cons_free cfgDefault rfl rfl,
      stepOut_default_mid st b (by omega), stepSt_default_mid st b (by omega)]
    rw [ih x ⟨st.adr + 1, st.cnt + 1, st.ix + 1, st.asc ++ [asciiChar b], st.lines, st.ovfl⟩
      (by simp; omega)]
    simp [List.append_assoc, hexSp]
    refine ⟨by omega, by omega, by omega⟩

theorem run_full (c : List Nat) :
    ∀ (b : Nat) (rest : List Nat) (st : DumpSt), st.ix + c.length + 1 = 16 →
    dumpLoop cfgDefault ((b :: c) ++ rest) st =
      ⟨(if st.ix = 0 then addrLong false st.adr else []) ++ (b :: c).flatMap hexSp
         ++ [' ', '|'] ++ (st.asc ++ (b :: c).map asciiChar) ++ ['|', '\n']
         ++ (dumpLoop cfgDefault rest
              ⟨st.adr + (c.length + 1), st.cnt + (c.length + 1), 0, [], st.lines ++ [16], st.ovfl⟩).out,
       (dumpLoop cfgDefault rest
          ⟨st.adr + (c.length + 1), st.cnt + (c.length + 1), 0, [], st.lines ++ [16], st.ovfl⟩).st,
       (dumpLoop cfgDefault rest
          ⟨st.adr + (c.length + 1), st.cnt + (c.length + 1), 0, [], st.lines ++ [16], st.ovfl⟩).eof,
       (dumpLoop cfgDefault rest
          ⟨st.adr + (c.length + 1), st.cnt + (c.length + 1), 0, [], st.lines ++ [16], st.ovfl⟩).rem⟩ := by
  induction c with
  | nil =>
    intro b rest st h
    simp only [List.length_nil] at h
    rw [List.cons_append, List.nil_append, dumpLoop_cons_free cfgDefault rfl rfl,
      stepOut_default_wrap st b (by omega), stepSt_default_wrap st b (by omega)]
    simp [List.append_assoc, hexSp]
  | cons x c ih =>
    intro b rest st h
    simp only [List.length_cons] at h
    rw [List.cons_append, dumpLoop_cons_free cfgDefault rfl rfl,
      stepOut_default_mid st b (by omega), stepSt_default_mid st b (by omega)]
    rw [show (x :: c ++ rest : List Nat) = (x :: c) ++ rest from rfl]
    rw [ih x rest ⟨st.adr + 1, st.cnt + 1, st.ix + 1, st.asc ++ [asciiChar b], st.lines, st.ovfl⟩
      (by simp; omega)]
    have harith : st.adr + 1 + (c.length + 1) = st.adr + (c.length + 1 + 1) := by omega
    have harith2 : st.cnt + 1 + (c.length + 1) = st.cnt + (c.length + 1 + 1) := by omega
    simp [List.append_assoc, harith, harith2, hexSp]

theorem flushLine_ix0 (cfg : Config) (st : DumpSt) (h : st.ix = 0) : flushLine cfg st = [] := by
  simp [flushLine, h]

theorem flushPadOut_default (f : Nat) : ∀ ix, flushPadOut cfgDefault f ix = List.replicate (3 * f) ' ' := by
  induction f with
  | zero => intro ix; rfl
  | succ g ih =>
    intro ix
    rw [flushPadOut, sepAfter_default, ih]
    rw [show 3 * (g + 1) = 3 + 3 * g by ring, List.replicate_add]
    simp [cfgDefault]

theorem flushLine_default (st : DumpSt) (h1 : st.ix ≠ 0) :
    flushLine cfgDefault st = List.replicate (3 * (16 - st.ix)) ' ' ++ [' ', '|']
      ++ (st.asc ++ List.replicate (16 - st.ix) ' ') ++ ['|', '\n'] := by
  rw [flushLine, if_pos (by simp [cfgDefault, h1]), flushPadOut_default, spGutter_default]
  simp [cfgDefault, List.append_assoc]

theorem dumpLinesL_nil (adr : Nat) : dumpLinesL adr [] = [] := by
  rw [dumpLinesL.eq_def]

theorem dumpLinesL_cons (adr b : Nat) (tail : List Nat) :
    dumpLinesL adr (b :: tail)
      = mkLine adr (b :: tail.take 15) :: dumpLinesL (adr + 16) (tail.drop 15) := by
  rw [dumpLinesL.eq_def]

theorem joinNL_cons (l : List Char) (L : List (List Char)) :
    joinNL (l :: L) = l ++ '\n' :: joinNL L := by
  simp [joinNL]

theorem run_dump : ∀ (n : Nat) (S : List Nat), S.length = n → ∀ st : DumpSt,
    st.ix = 0 → st.asc = [] →
    (dumpLoop cfgDefault S st).out ++ flushLine cfgDefault (dumpLoop cfgDefault S st).st
      = joinNL (dumpLinesL st.adr S) := by
  intro n
  induction n using Nat.strong_induction_on with
  | _ n ih =>
    intro S hS st h0 ha
    match S with
    | [] =>
      rw [dumpLoop_nil, flushLine_ix0 cfgDefault st h0, dumpLinesL_nil]
      rfl
    | b :: tail =>
      simp only [List.length_cons] at hS
      by_cases hlen : tail.length < 15
      · rw [run_part tail b st (by omega)]
        rw [flushLine_default _ (by simp)]
        rw [dumpLinesL_cons]
        rw [List.take_of_length_le (by omega), List.drop_eq_nil_of_le (by omega), dumpLinesL_nil]
        rw [if_pos h0, ha, joinNL]
        simp only [List.flatMap_cons, List.flatMap_nil, List.append_nil, mkLine]
        simp only [h0, Nat.zero_add, List.length_cons, List.nil_append]
        simp [List.append_assoc]
      · have h15 : 15 ≤ tail.length := by omega
        have hlen15 : (tail.take 15).length = 15 := by simp [List.length_take]; omega
        obtain ⟨c, rest2, hc15, rfl⟩ : ∃ c r2, c.length = 15 ∧ tail = c ++ r2 :=
          ⟨tail.take 15, tail.drop 15, hlen15, (List.take_append_drop 15 tail).symm⟩
        simp only [List.length_append, hc15] at hS
        rw [dumpLinesL_cons]
        rw [show (c ++ rest2 : List Nat).take 15 = c from by rw [← hc15, List.take_left]]
        rw [show (c ++ rest2 : List Nat).drop 15 = rest2 from by rw [← hc15, List.drop_left]]
        rw [show (b :: (c ++ rest2) : List Nat) = (b :: c) ++ rest2 from by simp]
        rw [run_full c b rest2 st (by omega)]
        have hrec := ih rest2.length (by omega) rest2 rfl
          ⟨st.adr + (c.length + 1), st.cnt + (c.length + 1), 0, [],
            st.lines ++ [16], st.ovfl⟩ rfl rfl
        dsimp only at hrec ⊢
        rw [if_pos h0, ha, joinNL_cons]
        rw [show st.adr + 16 = st.adr + (c.length + 1) from by omega]
        rw [← hrec]
        simp [mkLine, hc15, List.append_assoc]

theorem dumpLinesL_no_nl : ∀ (n : Nat) (S : List Nat), S.length = n →
    (∀ b ∈ S, b < 256) → ∀ adr : Nat, ∀ l ∈ dumpLinesL adr S, '\n' ∉ l := by
  intro n
  induction n using Nat.strong_induction_on with
  | _ n ih =>
    intro S hS hb adr l hl
    match S with
    | [] => rw [dumpLinesL_nil] at hl; simp at hl
    | b :: tail =>
      simp only [List.length_cons] at hS
      rw [dumpLinesL_cons] at hl
      rcases List.mem_cons.mp hl with rfl | hl
      · exact mkLine_no_nl adr (b :: tail.take 15)
          (fun x hx => hb x (by
            rcases List.mem_cons.mp hx with rfl | hx
            · simp
            · exact List.mem_cons_of_mem _ (List.take_subset 15 tail hx)))
      · exact ih (tail.drop 15).length (by simp [List.length_drop]; omega) (tail.drop 15) rfl
          (fun x hx => hb x (List.mem_cons_of_mem _ (List.drop_subset 15 tail hx))) (adr + 16) l hl

theorem dumpLinesL_decode : ∀ (n : Nat) (S : List Nat), S.length = n →
    (∀ b ∈ S, b < 256) → ∀ adr : Nat, adr + S.length ≤ 16 ^ 8 →
    (dumpLinesL adr S).flatMap decodeLine = S := by
  intro n
  induction n using Nat.strong_induction_on with
  | _ n ih =>
    intro S hS hb adr hadr
    match S with
    | [] => rw [dumpLinesL_nil]; rfl
    | b :: tail =>
      simp only [List.length_cons] at hS hadr
      rw [dumpLinesL_cons, List.flatMap_cons]
      rw [decodeLine_mkLine adr (b :: tail.take 15)
        (fun x hx => hb x (by
          rcases List.mem_cons.mp hx with rfl | hx
          · simp
          · exact List.mem_cons_of_mem _ (List.take_subset 15 tail hx)))
        (by omega)]
      by_cases hlen : tail.length < 15
      · rw [List.drop_eq_nil_of_le (by omega), dumpLinesL_nil]
        simp [List.take_of_length_le (le_of_lt (by omega : tail.length < 15))]
      · rw [ih (tail.drop 15).length (by simp [List.length_drop]; omega) (tail.drop 15) rfl
          (fun x hx => hb x (List.mem_cons_of_mem _ (List.drop_subset 15 tail hx)))
          (adr + 16) (by simp [List.length_drop]; omega)]
        simp [List.take_append_drop]

/-! Counting lemmas for the skip phase, the byte limit and line wrapping. -/

theorem dumpLoop_skip_all (cfg : Config) :
    ∀ (S : List Nat) (st : DumpSt), st.adr + S.length ≤ cfg.Start →
    (cfg.Count = 0 ∨ st.cnt < cfg.Count) →
    dumpLoop cfg S st = ⟨[], ⟨st.adr + S.length, st.cnt, st.ix, st.asc, st.lines, st.ovfl⟩, true, []⟩ := by
  intro S
  induction S with
  | nil => intro st h hg; rw [dumpLoop_nil]; simp
  | cons ch rest ih =>
    intro st h hg
    simp only [List.length_cons] at h
    rw [dumpLoop, if_neg (by omega), if_pos (by constructor <;> omega)]
    rw [ih ⟨st.adr + 1, st.cnt, st.ix, st.asc, st.lines, st.ovfl⟩ (by simp; omega) (by simpa using hg)]
    simp
    omega

theorem dumpLoop_skip (cfg : Config) :
    ∀ (k : Nat) (S : List Nat) (st : DumpSt), st.adr + k = cfg.Start → k ≤ S.length →
    (cfg.Count = 0 ∨ st.cnt < cfg.Count) →
    dumpLoop cfg S st
      = dumpLoop cfg (S.drop k) ⟨cfg.Start, st.cnt, st.ix, st.asc, st.lines, st.ovfl⟩ := by
  intro k
  induction k with
  | zero =>
    intro S st h _ _
    simp only [List.drop_zero]
    congr 1
    cases st
    simp at h ⊢
    omega
  | succ j ih =>
    intro S st h hk hg
    match S with
    | [] => simp at hk
    | ch :: rest =>
      rw [dumpLoop, if_neg (by omega), if_pos (by constructor <;> omega)]
      rw [ih rest ⟨st.adr + 1, st.cnt, st.ix, st.asc, st.lines, st.ovfl⟩ (by simp; omega)
        (by simp at hk ⊢; omega) (by simpa using hg)]
      simp

theorem dumpLoop_count_eof (cfg : Config) (hc : cfg.Count = 0) :
    ∀ (S : List Nat) (st : DumpSt),
    (dumpLoop cfg S st).st.cnt = st.cnt + (S.length - (cfg.Start - st.adr))
      ∧ (dumpLoop cfg S st).eof = true := by
  intro S
  induction S with
  | nil => intro st; rw [dumpLoop_nil]; simp
  | cons ch rest ih =>
    intro st
    rw [dumpLoop, if_neg (by omega)]
    by_cases hskip : cfg.Start ≠ 0 ∧ st.adr < cfg.Start
    · rw [if_pos hskip]
      have := ih ⟨st.adr + 1, st.cnt, st.ix, st.asc, st.lines, st.ovfl⟩
      simp only at this
      refine ⟨?_, this.2⟩
      rw [this.1]
      simp only [List.length_cons]
      omega
    · rw [if_neg hskip]
      have := ih (stepSt cfg st ch)
      have hcnt : (stepSt cfg st ch).cnt = st.cnt + 1 := by
        rw [stepSt]
        split <;> rfl
      have hadr : (stepSt cfg st ch).adr = st.adr + 1 := by
        rw [stepSt]
        split <;> rfl
      simp only [List.length_cons]
      refine ⟨?_, this.2⟩
      rw [this.1, hcnt, hadr]
      omega

theorem dumpLoop_emit_le (cfg : Config) :
    ∀ (S : List Nat) (st : DumpSt), cfg.Count ≠ 0 → cfg.Start ≤ st.adr →
    st.cnt + S.length ≤ cfg.Count →
    (dumpLoop cfg S st).st.cnt = st.cnt + S.length ∧ (dumpLoop cfg S st).eof = true
      ∧ (dumpLoop cfg S st).rem = [] := by
  intro S
  induction S with
  | nil => intro st _ _ _; rw [dumpLoop_nil]; simp
  | cons ch rest ih =>
    intro st hc hs hle
    simp only [List.length_cons] at hle
    rw [dumpLoop, if_neg (by omega), if_neg (by omega)]
    have hcnt : (stepSt cfg st ch).cnt = st.cnt + 1 := by rw [stepSt]; split <;> rfl
    have hadr : (stepSt cfg st ch).adr = st.adr + 1 := by rw [stepSt]; split <;> rfl
    have := ih (stepSt cfg st ch) hc (by omega) (by omega)
    simp only [List.length_cons]
    exact ⟨by rw [this.1, hcnt]; omega, this.2.1, this.2.2⟩

theorem dumpLoop_emit_limit (cfg : Config) :
    ∀ (S : List Nat) (st : DumpSt), cfg.Count ≠ 0 → cfg.Start ≤ st.adr →
    st.cnt ≤ cfg.Count → cfg.Count - st.cnt < S.length →
    (dumpLoop cfg S st).st.cnt = cfg.Count ∧ (dumpLoop cfg S st).eof = false
      ∧ (dumpLoop cfg S st).rem.length = S.length - (cfg.Count - st.cnt) - 1 := by
  intro S
  induction S with
  | nil => intro st _ _ _ h; simp at h
  | cons ch rest ih =>
    intro st hc hs hle hlt
    simp only [List.length_cons] at hlt
    by_cases hstop : st.cnt < cfg.Count
    · rw [dumpLoop, if_neg (by omega), if_neg (by omega)]
      have hcnt : (stepSt cfg st ch).cnt = st.cnt + 1 := by rw [stepSt]; split <;> rfl
      have hadr : (stepSt cfg st ch).adr = st.adr + 1 := by rw [stepSt]; split <;> rfl
      have := ih (stepSt cfg st ch) hc (by omega) (by omega) (by omega)
      simp only [List.length_cons]
      exact ⟨this.1, this.2.1, by rw [this.2.2, hcnt]; omega⟩
    · have heq : st.cnt = cfg.Count := by omega
      rw [dumpLoop, if_pos (by constructor <;> omega)]
      refine ⟨by simpa using heq, by simp, by simp; omega⟩

theorem dumpLoop_lines (cfg : Config) (hc : cfg.Count = 0) (hs : cfg.Start = 0)
    (hp : cfg.PerLine ≠ 0) :
    ∀ (S : List Nat) (st : DumpSt), st.ix < cfg.PerLine →
    (dumpLoop cfg S st).st.lines
        = st.lines ++ List.replicate ((st.ix + S.length) / cfg.PerLine) cfg.PerLine
      ∧ (dumpLoop cfg S st).st.ix = (st.ix + S.length) % cfg.PerLine
      ∧ (dumpLoop cfg S st).eof = true := by
  intro S
  induction S with
  | nil =>
    intro st hix
    rw [dumpLoop_nil]
    simp [Nat.div_eq_of_lt hix, Nat.mod_eq_of_lt hix]
  | cons ch rest ih =>
    intro st hix
    rw [dumpLoop, if_neg (by omega), if_neg (by omega)]
    by_cases hwrap : cfg.PerLine ≤ st.ix + 1
    · have hix1 : st.ix + 1 = cfg.PerLine := by omega
      have hst : stepSt cfg st ch
          = ⟨st.adr + 1, st.cnt + 1, 0, [], st.lines ++ [st.ix + 1],
             st.ovfl || (cfg.Ascii && decide (64 ≤ st.ix))⟩ := by
        rw [stepSt, if_pos (by exact ⟨hp, hwrap⟩)]
      rw [hst]
      have := ih ⟨st.adr + 1, st.cnt + 1, 0, [], st.lines ++ [st.ix + 1],
        st.ovfl || (cfg.Ascii && decide (64 ≤ st.ix))⟩ (by simpa using Nat.pos_of_ne_zero hp)
      simp only at this
      refine ⟨?_, ?_, this.2.2⟩
      · rw [this.1, hix1]
        simp only [List.length_cons]
        rw [show st.ix + (rest.length + 1) = rest.length + cfg.PerLine by omega]
        rw [Nat.add_div_right _ (Nat.pos_of_ne_zero hp), List.append_assoc]
        rw [Nat.add_comm (rest.length / cfg.PerLine) 1, List.replicate_add]
        simp
      · rw [this.2.1]
        simp only [List.length_cons]
        rw [show st.ix + (rest.length + 1) = rest.length + cfg.PerLine by omega]
        rw [Nat.add_mod_right]
        simp
    · have hst : stepSt cfg st ch
          = ⟨st.adr + 1, st.cnt + 1, st.ix + 1,
             (if cfg.Ascii then st.asc ++ [asciiChar ch] else st.asc), st.lines,
             st.ovfl || (cfg.Ascii && decide (64 ≤ st.ix))⟩ := by
        rw [stepSt, if_neg (by intro hh; exact hwrap hh.2)]
      rw [hst]
      have := ih ⟨st.adr + 1, st.cnt + 1, st.ix + 1,
        (if cfg.Ascii then st.asc ++ [asciiChar ch] else st.asc), st.lines,
        st.ovfl || (cfg.Ascii && decide (64 ≤ st.ix))⟩ (by simp; omega)
      simp only at this
      refine ⟨?_, ?_, this.2.2⟩
      · rw [this.1]
        simp only [List.length_cons]
        rw [show st.ix + 1 + rest.length = st.ix + (rest.length + 1) by omega]
      · rw [this.2.1]
        simp only [List.length_cons]
        rw [show st.ix + 1 + rest.length = st.ix + (rest.length + 1) by omega]

/-! Variable-width address field lemmas. -/

theorem filter_space_replicate (n : Nat) :
    (List.replicate n ' ').filter (fun c => decide (c ≠ ' ')) = [] := by
  induction n with
  | zero => rfl
  | succ k ih => simp [List.replicate_succ, List.filter_cons, ih]

theorem padZ_natToHex_filter (k : Nat) (lo : Bool) (n : Nat) :
    (padZ k (natToHex lo n)).filter (fun c => decide (c ≠ ' '))
      = padZ k (natToHex lo n) := by
  apply List.filter_eq_self.mpr
  intro c hc
  rcases padZ_mem _ hc with rfl | hm
  · decide
  · obtain ⟨m, hm16, rfl⟩ := natToHex_mem lo n c hm
    simpa using (hexDigitChar_props lo m hm16).2.1

theorem dvar_bounds (a : Nat) : 4 ≤ dvar a ∧ dvar a ≤ 8 := by
  unfold dvar
  split_ifs <;> omega

theorem dvar_mono {a1 a2 : Nat} (h : a1 ≤ a2) : dvar a1 ≤ dvar a2 := by
  unfold dvar
  split_ifs <;> omega

theorem natToHex_le_dvar (lo : Bool) {a : Nat} (h : a < 2 ^ 31) :
    (natToHex lo a).length ≤ dvar a := by
  unfold dvar
  split_ifs with h1 h2 h3 h4
  · exact natToHex_length_le lo (by omega) (by norm_num at h1 ⊢; omega)
  · exact natToHex_length_le lo (by omega) (by norm_num at h2 ⊢; omega)
  · exact natToHex_length_le lo (by omega) (by norm_num at h3 ⊢; omega)
  · exact natToHex_length_le lo (by omega) (by norm_num at h4 ⊢; omega)
  · exact natToHex_length_le lo (by omega) (by norm_num; omega)

theorem addrVar_shape (lo : Bool) (a : Nat) :
    addrVar lo a
      = List.replicate (8 - dvar a) ' ' ++ padZ (dvar a) (natToHex lo a) ++ [' ', ' '] := by
  unfold addrVar dvar
  split_ifs <;> rfl

theorem padZ_dvar_length (lo : Bool) {a : Nat} (h : a < 2 ^ 31) :
    (padZ (dvar a) (natToHex lo a)).length = dvar a := by
  rw [padZ_length]
  have := natToHex_le_dvar lo h
  omega

theorem hexDigitCount_addrVar (lo : Bool) {a : Nat} (h : a < 2 ^ 31) :
    hexDigitCount (addrVar lo a) = dvar a := by
  rw [hexDigitCount, addrVar_shape]
  rw [List.filter_append, List.filter_append, filter_space_replicate,
    padZ_natToHex_filter]
  rw [show List.filter (fun c => decide (c ≠ ' ')) [' ', ' '] = [] from by decide]
  simp [padZ_dvar_length lo h]

theorem addrVar_length (lo : Bool) {a : Nat} (h : a < 2 ^ 31) :
    (addrVar lo a).length = 10 := by
  rw [addrVar_shape]
  have h1 := padZ_dvar_length lo h
  have h2 := dvar_bounds a
  simp [h1]
  omega

theorem flushPadOut_noHex (cfg : Config) (hx : cfg.HexDump = false) :
    ∀ f ix, flushPadOut cfg f ix = [] := by
  intro f
  induction f with
  | zero => intro ix; rfl
  | succ g ih =>
    intro ix
    rw [flushPadOut, ih, sepAfter, if_neg (by simp [hx])]
    simp [hx]

/-! The claims. -/

/-- C1 (confirmed): round-trip.  Dumping a byte stream `S` with the default
configuration (long addresses, 16 bytes per line, word group 1, hex and
ASCII on, uppercase, no skip, no limit) and re-deriving the bytes from the
hex-digit portion of the output text (dropping the 10-character address
column of each line and stopping at the `|` of the ASCII gutter)
reconstructs `S` exactly.  The hypotheses state the domain of the C code:
`fgetc` yields bytes 0..255, and every line address fits the 8-digit
field. -/
theorem claim_c1_roundtrip (S : List Nat) (hb : ∀ b ∈ S, b < 256)
    (hl : S.length ≤ 16 ^ 8) :
    decodeBytes (dump_file cfgDefault S).out = S := by
  have hrun := run_dump S.length S rfl initSt rfl rfl
  have hout : (dump_file cfgDefault S).out = joinNL (dumpLinesL 0 S) := by
    show (dumpLoop cfgDefault S initSt).out
        ++ flushLine cfgDefault (dumpLoop cfgDefault S initSt).st
        ++ endAddrOut cfgDefault (dumpLoop cfgDefault S initSt).st.cnt
      = joinNL (dumpLinesL 0 S)
    rw [show endAddrOut cfgDefault (dumpLoop cfgDefault S initSt).st.cnt = [] from by
      simp [endAddrOut, cfgDefault]]
    rw [List.append_nil]
    exact hrun
  rw [hout, decodeBytes, splitNL_joinNL _ (dumpLinesL_no_nl S.length S rfl hb 0)]
  exact dumpLinesL_decode S.length S rfl hb 0 (by omega)

set_option maxRecDepth 8192 in
theorem claim_c1_roundtrip_witness :
    (∀ b ∈ [0, 17, 255, 100], b < 256)
      ∧ ([0, 17, 255, 100] : List Nat).length ≤ 16 ^ 8
      ∧ decodeBytes (dump_file cfgDefault [0, 17, 255, 100]).out = [0, 17, 255, 100] :=
  ⟨by decide, by decide, claim_c1_roundtrip [0, 17, 255, 100] (by decide) (by decide)⟩

set_option maxRecDepth 8192 in
/-- C2 counterexample: the claim quantifies over every configuration with
`bytesPerLine = N > 0`, but with `startOffset = 1` and `N = 1` a 2-byte
stream produces a single 1-byte line, not `len(S)/N = 2` full lines (the
skipped byte is not dumped). -/
theorem claim_c2_counterexample :
    cfgSkipOne.PerLine = 1 ∧ lineByteCounts cfgSkipOne [0, 0] = [1]
      ∧ lineByteCounts cfgSkipOne [0, 0]
          ≠ List.replicate (([0, 0] : List Nat).length / cfgSkipOne.PerLine)
              cfgSkipOne.PerLine := by
  refine ⟨rfl, by decide, by decide⟩

/-- C2 (amended): for every configuration with `bytesPerLine = N > 0`,
`startOffset = 0` and `byteLimit = 0`, the dump consists of exactly
`len(S) / N` full lines of `N` bytes each plus, when `N` does not divide
`len(S)`, one partial trailing line of `len(S) % N` bytes; when
`len(S) = N` the dump is exactly one full line, the per-line byte index is
0 after the loop, and the flush emits nothing (no padding). -/
theorem claim_c2_lines (cfg : Config) (S : List Nat) (N : Nat) (hN : cfg.PerLine = N)
    (hN0 : N ≠ 0) (hs : cfg.Start = 0) (hc : cfg.Count = 0) :
    lineByteCounts cfg S
        = List.replicate (S.length / N) N
          ++ (if S.length % N = 0 then [] else [S.length % N])
      ∧ (S.length = N → lineByteCounts cfg S = [N]
          ∧ (dump_file cfg S).st.ix = 0 ∧ flushLine cfg (dump_file cfg S).st = []) := by
  subst hN
  have hmain := dumpLoop_lines cfg hc hs hN0 S initSt
    (by simpa using Nat.pos_of_ne_zero hN0)
  have hst : (dump_file cfg S).st = (dumpLoop cfg S initSt).st := rfl
  have hlines : lineByteCounts cfg S
      = List.replicate (S.length / cfg.PerLine) cfg.PerLine
        ++ (if S.length % cfg.PerLine = 0 then [] else [S.length % cfg.PerLine]) := by
    rw [lineByteCounts, hst, hmain.1, hmain.2.1]
    show ([] : List Nat) ++ List.replicate ((0 + S.length) / cfg.PerLine) cfg.PerLine
        ++ (if (0 + S.length) % cfg.PerLine ≠ 0 then [(0 + S.length) % cfg.PerLine] else [])
      = _
    rw [Nat.zero_add, List.nil_append]
    by_cases hmod : S.length % cfg.PerLine = 0 <;> simp [hmod]
  refine ⟨hlines, ?_⟩
  intro hSN
  have hix : (dump_file cfg S).st.ix = 0 := by
    rw [hst, hmain.2.1]
    show (initSt.ix + S.length) % cfg.PerLine = 0
    rw [hSN]
    show (0 + cfg.PerLine) % cfg.PerLine = 0
    simp
  refine ⟨?_, hix, flushLine_ix0 cfg _ hix⟩
  rw [hlines, hSN]
  rw [Nat.div_self (Nat.pos_of_ne_zero hN0), Nat.mod_self]
  simp

/-- C2 amended-claim witness at a 20-byte stream with the default 16-byte
lines: one full line of 16 and a partial line of 4. -/
theorem claim_c2_lines_witness :
    lineByteCounts cfgDefault (List.replicate 20 65)
        = List.replicate ((List.replicate 20 65 : List Nat).length / 16) 16
          ++ (if (List.replicate 20 65 : List Nat).length % 16 = 0 then []
              else [(List.replicate 20 65 : List Nat).length % 16]) :=
  (claim_c2_lines cfgDefault (List.replicate 20 65) 16 rfl (by decide) rfl rfl).1

/-- C3 (confirmed): with `byteLimit = L > 0` and `L < len(S) - startOffset`,
the dump emits exactly `L` bytes and the summary reports a truncated dump
(negative return of `dump_file`, i.e. End-of-Dump, not End-of-File). -/
theorem claim_c3_limit (cfg : Config) (S : List Nat) (L : Nat) (hL : cfg.Count = L)
    (hL0 : 0 < L) (hlen : cfg.Start + L < S.length) :
    (summaryOf cfg S).bytesEmitted = L ∧ (summaryOf cfg S).truncated = true := by
  subst hL
  have hskip := dumpLoop_skip cfg cfg.Start S initSt (by simp [initSt]) (by omega)
    (Or.inr (by simpa using hL0))
  have hlim := dumpLoop_emit_limit cfg (S.drop cfg.Start)
    ⟨cfg.Start, initSt.cnt, initSt.ix, initSt.asc, initSt.lines, initSt.ovfl⟩
    (by omega) (by simp) (by simp [initSt])
    (by simp [initSt, List.length_drop]; omega)
  have hcnt : (dumpLoop cfg S initSt).st.cnt = cfg.Count := by rw [hskip]; exact hlim.1
  have heof : (dumpLoop cfg S initSt).eof = false := by rw [hskip]; exact hlim.2.1
  have hret : (dump_file cfg S).ret = -((cfg.Count : Nat) : Int) := by
    show (if (dumpLoop cfg S initSt).eof then ((dumpLoop cfg S initSt).st.cnt : Int)
        else -((dumpLoop cfg S initSt).st.cnt : Int)) = _
    rw [heof, hcnt]
    rfl
  constructor
  · show (dump_file cfg S).ret.natAbs = cfg.Count
    rw [hret]
    simp
  · show decide ((dump_file cfg S).ret < 0) = true
    rw [hret]
    simp only [decide_eq_true_eq]
    omega

/-- C3 witness: limit 2 on a 4-byte stream. -/
theorem claim_c3_limit_witness :
    (summaryOf cfgLimitTwo [1, 2, 3, 4]).bytesEmitted = 2
      ∧ (summaryOf cfgLimitTwo [1, 2, 3, 4]).truncated = true :=
  claim_c3_limit cfgLimitTwo [1, 2, 3, 4] 2 rfl (by decide) (by decide)

/-- C4 counterexample: with `byteLimit = 1` and `startOffset = 0`, dumping
the 3-byte stream `[7, 8, 9]` consumes 2 bytes — the emitted byte plus the
look-ahead byte that `fgetc` pulls before the limit test fails — not
`skipped + L = 1` as the claim states. -/
theorem claim_c4_counterexample :
    consumedOf cfgLimitOne [7, 8, 9] = 2
      ∧ consumedOf cfgLimitOne [7, 8, 9] ≠ cfgLimitOne.Start + 1 := by
  refine ⟨by decide, by decide⟩

/-- C4 (amended): with `byteLimit = L > 0` the engine consumes
`min(len(S), startOffset + L + 1)` bytes from the stream: the loop
condition runs `fgetc` before testing the limit, so one byte beyond the
skipped bytes plus `L` is pulled and discarded whenever the stream still
has one; the remainder of the stream past that byte stays unread. -/
theorem claim_c4_consumed (cfg : Config) (S : List Nat) (L : Nat) (hL : cfg.Count = L)
    (hL0 : 0 < L) :
    consumedOf cfg S = min S.length (cfg.Start + L + 1) := by
  subst hL
  rcases le_or_lt S.length cfg.Start with hcase | hcase
  · have hall := dumpLoop_skip_all cfg S initSt
      (show 0 + S.length ≤ cfg.Start from by omega) (Or.inr (by simpa using hL0))
    have hrem : (dump_file cfg S).rem = [] := by
      show (dumpLoop cfg S initSt).rem = []
      rw [hall]
    rw [consumedOf, hrem]
    simp
    omega
  · have hskip := dumpLoop_skip cfg cfg.Start S initSt (by simp [initSt]) (by omega)
      (Or.inr (by simpa using hL0))
    rcases le_or_lt S.length (cfg.Start + cfg.Count) with hcase2 | hcase2
    · have hle := dumpLoop_emit_le cfg (S.drop cfg.Start)
        ⟨cfg.Start, initSt.cnt, initSt.ix, initSt.asc, initSt.lines, initSt.ovfl⟩
        (by omega) (by simp) (by simp [initSt, List.length_drop]; omega)
      have hrem : (dump_file cfg S).rem = [] := by
        show (dumpLoop cfg S initSt).rem = []
        rw [hskip]
        exact hle.2.2
      rw [consumedOf, hrem]
      simp
      omega
    · have hlim := dumpLoop_emit_limit cfg (S.drop cfg.Start)
        ⟨cfg.Start, initSt.cnt, initSt.ix, initSt.asc, initSt.lines, initSt.ovfl⟩
        (by omega) (by simp) (by simp [initSt])
        (by simp [initSt, List.length_drop]; omega)
      have hrem : (dump_file cfg S).rem.length
          = (S.drop cfg.Start).length - cfg.Count - 1 := by
        show (dumpLoop cfg S initSt).rem.length = _
        rw [hskip, hlim.2.2]
        simp [initSt]
      rw [consumedOf, hrem]
      simp [List.length_drop]
      omega

/-- C4 amended-claim witness: limit 1 on the 3-byte stream consumes
`min(3, 0 + 1 + 1) = 2` bytes. -/
theorem claim_c4_consumed_witness :
    consumedOf cfgLimitOne [7, 8, 9]
      = min ([7, 8, 9] : List Nat).length (cfgLimitOne.Start + 1 + 1) :=
  claim_c4_consumed cfgLimitOne [7, 8, 9] 1 rfl (by decide)

/-- C5 (confirmed): with `startOffset = k` and `byteLimit = 0` the emitted
byte count is `len(S) - k` in truncated subtraction, i.e. `max(0, len(S)-k)`,
and the dump is never reported truncated; when `k` is at or beyond the
stream length no byte and no text is emitted by the loop, the byte index
stays 0, the flush emits nothing, and the whole output reduces to the
(optional) trailing-address line for a count of 0. -/
theorem claim_c5_start (cfg : Config) (S : List Nat) (k : Nat) (hk : cfg.Start = k)
    (hc : cfg.Count = 0) :
    (summaryOf cfg S).bytesEmitted = S.length - k
      ∧ (summaryOf cfg S).truncated = false
      ∧ (S.length ≤ k → (dumpLoop cfg S initSt).out = []
          ∧ (dump_file cfg S).st.ix = 0
          ∧ flushLine cfg (dump_file cfg S).st = []
          ∧ (dump_file cfg S).out = endAddrOut cfg 0) := by
  subst hk
  have hcnt := dumpLoop_count_eof cfg hc S initSt
  have hcnt1 : (dumpLoop cfg S initSt).st.cnt = S.length - cfg.Start := by
    rw [hcnt.1]
    show 0 + (S.length - (cfg.Start - 0)) = _
    omega
  have hret : (dump_file cfg S).ret = ((S.length - cfg.Start : Nat) : Int) := by
    show (if (dumpLoop cfg S initSt).eof then ((dumpLoop cfg S initSt).st.cnt : Int)
        else -((dumpLoop cfg S initSt).st.cnt : Int)) = _
    rw [hcnt.2, hcnt1]
    rfl
  refine ⟨?_, ?_, ?_⟩
  · show (dump_file cfg S).ret.natAbs = S.length - cfg.Start
    rw [hret]
    simp
  · show decide ((dump_file cfg S).ret < 0) = false
    rw [hret]
    simp only [decide_eq_false_iff_not]
    omega
  · intro hsk
    have hall := dumpLoop_skip_all cfg S initSt
      (show 0 + S.length ≤ cfg.Start from by omega) (Or.inl hc)
    have hout : (dumpLoop cfg S initSt).out = [] := by rw [hall]
    have hix0 : (dumpLoop cfg S initSt).st.ix = 0 := by rw [hall]; rfl
    have hix : (dump_file cfg S).st.ix = 0 := hix0
    have hcnt0 : (dumpLoop cfg S initSt).st.cnt = 0 := by rw [hall]; rfl
    refine ⟨hout, hix, flushLine_ix0 cfg _ hix0, ?_⟩
    show (dumpLoop cfg S initSt).out ++ flushLine cfg (dumpLoop cfg S initSt).st
        ++ endAddrOut cfg (dumpLoop cfg S initSt).st.cnt = endAddrOut cfg 0
    rw [hout, flushLine_ix0 cfg _ hix0, hcnt0]
    rfl

/-- C5 witness: skipping 5 bytes of a 3-byte stream emits nothing. -/
theorem claim_c5_start_witness :
    (summaryOf cfgSkipFive [1, 2, 3]).bytesEmitted = ([1, 2, 3] : List Nat).length - 5
      ∧ (summaryOf cfgSkipFive [1, 2, 3]).truncated = false
      ∧ (([1, 2, 3] : List Nat).length ≤ 5 → (dumpLoop cfgSkipFive [1, 2, 3] initSt).out = []
          ∧ (dump_file cfgSkipFive [1, 2, 3]).st.ix = 0
          ∧ flushLine cfgSkipFive (dump_file cfgSkipFive [1, 2, 3]).st = []
          ∧ (dump_file cfgSkipFive [1, 2, 3]).out = endAddrOut cfgSkipFive 0) :=
  claim_c5_start cfgSkipFive [1, 2, 3] 5 rfl rfl

set_option maxRecDepth 8192 in
/-- C6 counterexample: the claim says that for every configuration an empty
stream makes the flush phase emit nothing; with `emitTrailingAddress`
enabled the flush phase of `dump_file` still prints the address line
`00000000`, so the output is a line rather than empty. -/
theorem claim_c6_counterexample :
    (dump_file cfgEndAddr ([] : List Nat)).out
        = ['0', '0', '0', '0', '0', '0', '0', '0', '\n']
      ∧ (dump_file cfgEndAddr ([] : List Nat)).out ≠ [] := by
  refine ⟨by decide, by decide⟩

/-- C6 (amended): dumping a stream with no byte remaining after the skip
phase emits no dump line (the loop writes nothing, the ghost line log stays
empty, the byte index stays 0, the partial-line flush emits nothing) and
the summary reports 0 bytes, not truncated; the whole output is empty when
`emitTrailingAddress` is off, and exactly the single trailing address line
`00000000` when it is on. -/
theorem claim_c6_empty (cfg : Config) (S : List Nat) (h : S.length ≤ cfg.Start) :
    (dumpLoop cfg S initSt).out = []
      ∧ (dump_file cfg S).st.ix = 0
      ∧ (dump_file cfg S).st.lines = []
      ∧ flushLine cfg (dump_file cfg S).st = []
      ∧ (summaryOf cfg S).bytesEmitted = 0
      ∧ (summaryOf cfg S).truncated = false
      ∧ (cfg.EndAddr = false → (dump_file cfg S).out = [])
      ∧ (cfg.EndAddr = true → (dump_file cfg S).out
          = ['0', '0', '0', '0', '0', '0', '0', '0', '\n']) := by
  have hguard : cfg.Count = 0 ∨ initSt.cnt < cfg.Count := by
    rcases Nat.eq_zero_or_pos cfg.Count with h0 | h0
    · exact Or.inl h0
    · exact Or.inr (by simpa using h0)
  have hall := dumpLoop_skip_all cfg S initSt
    (show 0 + S.length ≤ cfg.Start from by omega) hguard
  have hout : (dumpLoop cfg S initSt).out = [] := by rw [hall]
  have hix0 : (dumpLoop cfg S initSt).st.ix = 0 := by rw [hall]; rfl
  have hix : (dump_file cfg S).st.ix = 0 := hix0
  have hlines : (dump_file cfg S).st.lines = [] := by
    show (dumpLoop cfg S initSt).st.lines = []
    rw [hall]; rfl
  have hcnt : (dumpLoop cfg S initSt).st.cnt = 0 := by rw [hall]; rfl
  have heof : (dumpLoop cfg S initSt).eof = true := by rw [hall]
  have hret : (dump_file cfg S).ret = ((0 : Nat) : Int) := by
    show (if (dumpLoop cfg S initSt).eof then ((dumpLoop cfg S initSt).st.cnt : Int)
        else -((dumpLoop cfg S initSt).st.cnt : Int)) = _
    rw [heof, hcnt]
    rfl
  have houtall : (dump_file cfg S).out = endAddrOut cfg 0 := by
    show (dumpLoop cfg S initSt).out ++ flushLine cfg (dumpLoop cfg S initSt).st
        ++ endAddrOut cfg (dumpLoop cfg S initSt).st.cnt = endAddrOut cfg 0
    rw [hout, flushLine_ix0 cfg _ hix0, hcnt]
    rfl
  refine ⟨hout, hix, hlines, flushLine_ix0 cfg _ hix0, ?_, ?_, ?_, ?_⟩
  · show (dump_file cfg S).ret.natAbs = 0
    rw [hret]
    rfl
  · show decide ((dump_file cfg S).ret < 0) = false
    rw [hret]
    rfl
  · intro he
    rw [houtall, endAddrOut, if_neg (by simp [he])]
  · intro he
    rw [houtall, endAddrOut, if_pos he]
    decide

/-- C6 amended-claim witness: a 2-byte stream entirely skipped by a start
offset of 5, trailing address disabled. -/
theorem claim_c6_empty_witness :
    (dumpLoop cfgSkipFive [1, 2] initSt).out = []
      ∧ (dump_file cfgSkipFive [1, 2]).st.ix = 0
      ∧ (dump_file cfgSkipFive [1, 2]).st.lines = []
      ∧ flushLine cfgSkipFive (dump_file cfgSkipFive [1, 2]).st = []
      ∧ (summaryOf cfgSkipFive [1, 2]).bytesEmitted = 0
      ∧ (summaryOf cfgSkipFive [1, 2]).truncated = false
      ∧ (cfgSkipFive.EndAddr = false → (dump_file cfgSkipFive [1, 2]).out = [])
      ∧ (cfgSkipFive.EndAddr = true → (dump_file cfgSkipFive [1, 2]).out
          = ['0', '0', '0', '0', '0', '0', '0', '0', '\n']) :=
  claim_c6_empty cfgSkipFive [1, 2] (by decide)

set_option maxRecDepth 16384 in
/-- C7 (code-bug evidence): in continuous mode (`bytesPerLine = 0`) with the
ASCII gutter left enabled, the line-wrap condition indeed never triggers, so
`ix` grows with the stream; on a 65-byte stream the main loop performs the
write `asc[64]`, one past the end of the C declaration `char asc[64]` of
`dump_file` (ghost flag `ovfl`), while a 64-byte stream stays in bounds.
The spec requires the engine not to crash with the ASCII buffer simply
growing; the fixed-size C buffer is overrun instead (undefined behaviour). -/
theorem claim_c7_overflow :
    (dump_file cfgContAscii (List.replicate 65 0)).st.ovfl = true
      ∧ (dump_file cfgContAscii (List.replicate 64 0)).st.ovfl = false
      ∧ (dump_file cfgContAscii (List.replicate 65 0)).st.lines = [] := by
  refine ⟨by decide, by decide, by decide⟩

/-- C8 (confirmed): in variable address mode the field of an address below
2^31 (the C `int` range) always has total width 10 and ends in two blanks;
its digit count is exactly `dvar` — 4 below 0x10000, 5 below 0x100000, 6
below 0x1000000, 7 below 0x10000000, else 8, with `8 - dvar` leading
blanks and zero padding to the threshold width — and the digit count is
monotone non-decreasing in the address. -/
theorem claim_c8_addr_var (lo : Bool) (a1 a2 : Nat) (h12 : a1 ≤ a2) (h2 : a2 < 2 ^ 31) :
    (addrVar lo a1).length = 10
      ∧ (addrVar lo a2).length = 10
      ∧ hexDigitCount (addrVar lo a1) = dvar a1
      ∧ hexDigitCount (addrVar lo a2) = dvar a2
      ∧ hexDigitCount (addrVar lo a1) ≤ hexDigitCount (addrVar lo a2)
      ∧ addrVar lo a1
          = List.replicate (8 - dvar a1) ' ' ++ padZ (dvar a1) (natToHex lo a1) ++ [' ', ' '] := by
  have h1 : a1 < 2 ^ 31 := Nat.lt_of_le_of_lt h12 h2
  refine ⟨addrVar_length lo h1, addrVar_length lo h2, hexDigitCount_addrVar lo h1,
    hexDigitCount_addrVar lo h2, ?_, addrVar_shape lo a1⟩
  rw [hexDigitCount_addrVar lo h1, hexDigitCount_addrVar lo h2]
  exact dvar_mono h12

/-- C8 witness at the 4-digit/5-digit threshold. -/
theorem claim_c8_addr_var_witness :
    (addrVar false 65535).length = 10
      ∧ (addrVar false 65536).length = 10
      ∧ hexDigitCount (addrVar false 65535) = dvar 65535
      ∧ hexDigitCount (addrVar false 65536) = dvar 65536
      ∧ hexDigitCount (addrVar false 65535) ≤ hexDigitCount (addrVar false 65536)
      ∧ addrVar false 65535
          = List.replicate (8 - dvar 65535) ' ' ++ padZ (dvar 65535) (natToHex false 65535)
            ++ [' ', ' '] :=
  claim_c8_addr_var false 65535 65536 (by decide) (by decide)

/-- C9 (confirmed): with hex output on, the separator emitted after placing
a byte (index `ix` after increment) consists of one space per condition,
the word-group condition and the half-gap condition being checked
independently — its length is the sum of the two indicators; with
`wordGroupBytes = 1` and `halfGapBytes = 8` this gives two spaces at every
multiple of 8 (in particular after byte 8) and one space at every other
byte boundary. -/
theorem claim_c9_sep (cfg : Config) (ix : Nat) (hx : cfg.HexDump = true) :
    sepAfter cfg ix
        = List.replicate
            ((if cfg.WordLen ≠ 0 ∧ ix % cfg.WordLen = 0 then 1 else 0)
              + (if cfg.HalfGap ≠ 0 ∧ ix % cfg.HalfGap = 0 then 1 else 0)) ' '
      ∧ (cfg.WordLen = 1 → cfg.HalfGap = 8 →
          (ix % 8 = 0 → sepAfter cfg ix = [' ', ' '])
          ∧ (ix % 8 ≠ 0 → sepAfter cfg ix = [' '])) := by
  constructor
  · rw [sepAfter, if_pos hx]
    split_ifs <;> rfl
  · intro hw hh
    constructor
    · intro h8
      rw [sepAfter, if_pos hx, if_pos (by rw [hw]; exact ⟨one_ne_zero, Nat.mod_one ix⟩),
        if_pos (by rw [hh]; exact ⟨by omega, h8⟩)]
      rfl
    · intro h8
      rw [sepAfter, if_pos hx, if_pos (by rw [hw]; exact ⟨one_ne_zero, Nat.mod_one ix⟩),
        if_neg (by rw [hh]; exact fun hcc => h8 hcc.2)]
      rfl

/-- C9 witness: word group 1 and half gap 8 under the default options,
at boundaries 8 (two spaces) and 5 (one space). -/
theorem claim_c9_sep_witness :
    cfgHalfGap.HexDump = true
      ∧ sepAfter cfgHalfGap 8 = [' ', ' ']
      ∧ sepAfter cfgHalfGap 5 = [' '] := by
  refine ⟨rfl, ?_, ?_⟩
  · exact ((claim_c9_sep cfgHalfGap 8 rfl).2 rfl rfl).1 (by decide)
  · exact ((claim_c9_sep cfgHalfGap 5 rfl).2 rfl rfl).2 (by decide)

/-- C10 (confirmed): when hex output is off and the ASCII gutter on, the
separator before `|...|` is empty — whatever `WordLen` and `HalfGap` are —
both in the line-wrap emission of the main loop and in the end-of-stream
flush: the gutter follows the preceding text with zero spaces. -/
theorem claim_c10_gutter (cfg : Config) (st : DumpSt) (ch : Nat) (hx : cfg.HexDump = false)
    (ha : cfg.Ascii = true) (hp : cfg.PerLine ≠ 0) (hw : cfg.PerLine ≤ st.ix + 1) :
    spGutter cfg = []
      ∧ stepOut cfg st ch
          = (if st.ix = 0 ∧ cfg.AddrNum ≠ 0 then addrField cfg st.adr else [])
            ++ '|' :: ((st.asc ++ [asciiChar ch]) ++ ['|', '\n'])
      ∧ (st.ix ≠ 0 → flushLine cfg st
          = '|' :: ((if cfg.AscWide then st.asc ++ List.replicate (cfg.PerLine - st.ix) ' '
                     else st.asc) ++ ['|', '\n'])) := by
  have hsp : spGutter cfg = [] := by simp [spGutter, hx]
  refine ⟨hsp, ?_, ?_⟩
  · rw [stepOut, sepAfter]
    rw [if_neg (show ¬ (cfg.HexDump = true) from by simp [hx])]
    rw [if_neg (show ¬ (cfg.HexDump = true) from by simp [hx])]
    rw [if_pos (show cfg.PerLine ≠ 0 ∧ cfg.PerLine ≤ st.ix + 1 from ⟨hp, hw⟩)]
    rw [if_pos (show cfg.Ascii = true from ha), hsp]
    simp [List.append_assoc]
  · intro h0
    rw [flushLine, if_pos (show (cfg.Ascii = true) ∧ st.ix ≠ 0 from ⟨ha, h0⟩), hsp,
      flushPadOut_noHex cfg hx]
    simp [List.append_assoc]

/-- C10 witness: hex off, ASCII on, word group 4 and half gap 8 set, at a
line wrap (`ix + 1` reaches 16) and at a flush with 15 pending bytes. -/
theorem claim_c10_gutter_witness :
    spGutter cfgNoHex = []
      ∧ stepOut cfgNoHex ⟨5, 5, 15, ['a'], [], false⟩ 66
          = (if (⟨5, 5, 15, ['a'], [], false⟩ : DumpSt).ix = 0 ∧ cfgNoHex.AddrNum ≠ 0
              then addrField cfgNoHex (⟨5, 5, 15, ['a'], [], false⟩ : DumpSt).adr else [])
            ++ '|' :: ((['a'] ++ [asciiChar 66]) ++ ['|', '\n'])
      ∧ ((⟨5, 5, 15, ['a'], [], false⟩ : DumpSt).ix ≠ 0 →
          flushLine cfgNoHex ⟨5, 5, 15, ['a'], [], false⟩
            = '|' :: ((if cfgNoHex.AscWide
                then ['a'] ++ List.replicate (cfgNoHex.PerLine - 15) ' ' else ['a'])
              ++ ['|', '\n'])) :=
  claim_c10_gutter cfgNoHex ⟨5, 5, 15, ['a'], [], false⟩ 66 rfl rfl (by decide) (by decide)
